import Mathlib

/-!
# Verification of the Xaurum → ReadyForFlow tabular ingestion engine

Shallow embedding of the pure core of `xaurum_converter.py`:
field normalizers (`normalize_sapnr`, `normalize_date`), header resolution
(`ws_headers_index` and the synonym lookup), the Certificates deduplication
fold (`convert_certificates`, step 2), the GID→SAP cross-reference lookup of
`convert_cert_results`, and the per-dataset error isolation of `main`.

Strings are modelled as `List Char`.  Python cell values are modelled by the
inductive type `Value` (`None`, `datetime`, numeric, everything else through
its `str()` form).  Python's `datetime.strptime` is modelled faithfully for
the nine format strings the converter uses: each directive matches the exact
regular-expression alternation CPython's `_strptime` module uses
(`%Y` = four digits, `%y` = two digits, `%m` = `1[0-2]|0[1-9]|[1-9]`,
`%d` = `3[01]|[12]\x5cd|0[1-9]|[1-9]`), the pattern match is a backtracking
first-match on a prefix of the input, trailing unconverted characters are an
error, and the captured fields must form a real calendar date
(year 1–9999, Gregorian leap rule).  `strftime("%Y-%m-%d")` is modelled as
zero-padded 4-2-2 digit output.
-/

/-- ASCII decimal digit character for `n % 10`-style arguments (`n < 10`). -/
def dChar : Nat → Char
  | 0 => '0' | 1 => '1' | 2 => '2' | 3 => '3' | 4 => '4'
  | 5 => '5' | 6 => '6' | 7 => '7' | 8 => '8' | _ => '9'

/-- Numeric value of an ASCII digit character. -/
def dv (c : Char) : Nat := c.toNat - 48

/-- Python `str.strip()` (whitespace from both ends). -/
def strip (s : List Char) : List Char :=
  ((s.dropWhile Char.isWhitespace).reverse.dropWhile Char.isWhitespace).reverse

/-- Python `str.lower()` (ASCII letters; sufficient for the labels in play). -/
def lower (s : List Char) : List Char := s.map Char.toLower

/-- `normalize_sapnr` body on the `str()` form of a non-`None` value:
strip, drop all non-digits, keep the last five digits if five or more
remain, otherwise keep whatever digits remain.  `none` models Python
`None`. -/
def normalize_sapnr : Option (List Char) → List Char
  | none => []
  | some s0 =>
    let s := strip s0
    if s = [] then []
    else
      let digits := s.filter Char.isDigit
      if 5 ≤ digits.length then digits.drop (digits.length - 5) else digits


/-! ## Calendar dates (Python `datetime.date` invariants) -/

/-- Gregorian leap-year rule, as `calendar.isleap`. -/
def isLeap (y : Nat) : Bool := (y % 4 == 0 && y % 100 != 0) || (y % 400 == 0)

/-- Days in a month (Gregorian). -/
def daysInMonth (y m : Nat) : Nat :=
  if m = 2 then (if isLeap y then 29 else 28)
  else if m = 4 ∨ m = 6 ∨ m = 9 ∨ m = 11 then 30
  else 31

/-- Validity check Python's `datetime(year, month, day)` constructor enforces
(`MINYEAR = 1`, `MAXYEAR = 9999`). -/
def dateOk : Nat × Nat × Nat → Bool :=
  fun t => 1 ≤ t.1 && t.1 ≤ 9999 && 1 ≤ t.2.1 && t.2.1 ≤ 12
           && 1 ≤ t.2.2 && t.2.2 ≤ daysInMonth t.1 t.2.1

/-- A valid calendar date, as carried by a Python `datetime` value. -/
def Date : Type := { t : Nat × Nat × Nat // dateOk t = true }

instance : DecidableEq Date := Subtype.instDecidableEq

def Date.year (d : Date) : Nat := d.val.1
def Date.month (d : Date) : Nat := d.val.2.1
def Date.day (d : Date) : Nat := d.val.2.2

/-- Strict ordering on dates (`datetime` comparison, restricted to dates). -/
def dateLt (a b : Date) : Bool :=
  a.year < b.year
  || (a.year == b.year && (a.month < b.month
       || (a.month == b.month && a.day < b.day)))

/-- Four-digit zero-padded decimal form (`%Y` output for years ≤ 9999). -/
def pad4 (n : Nat) : List Char :=
  [dChar (n / 1000 % 10), dChar (n / 100 % 10), dChar (n / 10 % 10), dChar (n % 10)]

/-- Two-digit zero-padded decimal form (`%m` / `%d` output). -/
def pad2 (n : Nat) : List Char := [dChar (n / 10 % 10), dChar (n % 10)]

/-- `strftime("%Y-%m-%d")`. -/
def fmtDate (d : Date) : List Char :=
  pad4 d.year ++ '-' :: (pad2 d.month ++ '-' :: pad2 d.day)

/-! ## `datetime.strptime` for the converter's nine format strings -/

/-- Format-string directives appearing in the converter's patterns. -/
inductive Tok
  | lit (c : Char)   -- a literal separator character
  | numY             -- %Y : exactly four digits
  | numy             -- %y : exactly two digits
  | numM             -- %m : 1[0-2] | 0[1-9] | [1-9]
  | numD             -- %d : 3[01] | [12]\x5cd | 0[1-9] | [1-9]
deriving DecidableEq

/-- Captured fields of a match (CPython keeps one slot per directive). -/
structure Fields where
  fY : Option Nat := none
  fy : Option Nat := none
  fm : Option Nat := none
  fd : Option Nat := none
deriving DecidableEq

def setTok (f : Fields) : Tok → Nat → Fields
  | .numY, v => { f with fY := some v }
  | .numy, v => { f with fy := some v }
  | .numM, v => { f with fm := some v }
  | .numD, v => { f with fd := some v }
  | .lit _, _ => f

def isD19 (c : Char) : Bool := c.isDigit && c ≠ '0'

/-- Candidate `(value, rest)` matches of a numeric directive at the head of
the input, in the exact order of CPython's regex alternations. -/
def alts : Tok → List Char → List (Nat × List Char)
  | .numY, a :: b :: c :: d :: rest =>
    if a.isDigit && b.isDigit && c.isDigit && d.isDigit then
      [(1000 * dv a + 100 * dv b + 10 * dv c + dv d, rest)]
    else []
  | .numY, _ => []
  | .numy, a :: b :: rest =>
    if a.isDigit && b.isDigit then [(10 * dv a + dv b, rest)] else []
  | .numy, _ => []
  | .numM, xs =>
    (match xs with
     | a :: b :: rest =>
       if a = '1' && (b = '0' || b = '1' || b = '2') then [(10 + dv b, rest)] else []
     | _ => []) ++
    (match xs with
     | a :: b :: rest => if a = '0' && isD19 b then [(dv b, rest)] else []
     | _ => []) ++
    (match xs with
     | a :: rest => if isD19 a then [(dv a, rest)] else []
     | _ => [])
  | .numD, xs =>
    (match xs with
     | a :: b :: rest =>
       if a = '3' && (b = '0' || b = '1') then [(30 + dv b, rest)] else []
     | _ => []) ++
    (match xs with
     | a :: b :: rest =>
       if (a = '1' || a = '2') && b.isDigit then [(10 * dv a + dv b, rest)] else []
     | _ => []) ++
    (match xs with
     | a :: b :: rest => if a = '0' && isD19 b then [(dv b, rest)] else []
     | _ => []) ++
    (match xs with
     | a :: rest => if isD19 a then [(dv a, rest)] else []
     | _ => [])
  | .lit _, _ => []

/-- Try the candidates in order; first one whose continuation succeeds wins
(regex backtracking). -/
def tryCands (k : Nat → List Char → Option (Fields × List Char)) :
    List (Nat × List Char) → Option (Fields × List Char)
  | [] => none
  | (v, rest) :: cs =>
    match k v rest with
    | some r => some r
    | none => tryCands k cs

/-- Backtracking matcher.  Returns the captured fields and the unconsumed
suffix of the *first* complete match of the pattern against a prefix of the
input (CPython: `format_regex.match(data_string)`). -/
def matchToks : List Tok → List Char → Fields → Option (Fields × List Char)
  | [], xs, f => some (f, xs)
  | .lit c :: ts, xs, f =>
    match xs with
    | x :: rest => if x = c then matchToks ts rest f else none
    | [] => none
  | t :: ts, xs, f =>
    tryCands (fun v rest => matchToks ts rest (setTok f t v)) (alts t xs)

/-- Build the date from captured fields: the `%y` pivot (≤ 68 → 2000s) and
CPython's defaults `year=1900, month=1, day=1`; then the `datetime`
constructor validation. -/
def dateFromFields (f : Fields) : Option Date :=
  let y := match f.fY with
    | some y => y
    | none => match f.fy with
      | some t => if t ≤ 68 then 2000 + t else 1900 + t
      | none => 1900
  let m := (f.fm).getD 1
  let d := (f.fd).getD 1
  if h : dateOk (y, m, d) = true then some ⟨(y, m, d), h⟩ else none

/-- `datetime.strptime(s, fmt)` (`none` = `ValueError`): the pattern must
match a prefix with *no* unconverted data remaining, and the captures must
form a valid date. -/
def parseWith (tks : List Tok) (s : List Char) : Option Date :=
  match matchToks tks s {} with
  | some (f, []) => dateFromFields f
  | _ => none

/-- `"%Y-%m-%d"`. -/
def fmtYmd : List Tok := [.numY, .lit '-', .numM, .lit '-', .numD]

/-- The converter's ordered format list (`normalize_date`). -/
def pyFormats : List (List Tok) :=
  [ fmtYmd,
    [.numD, .lit '-', .numM, .lit '-', .numY],
    [.numD, .lit '/', .numM, .lit '/', .numY],
    [.numM, .lit '/', .numD, .lit '/', .numY],
    [.numD, .lit '/', .numM, .lit '/', .numy],
    [.numD, .lit '-', .numM, .lit '-', .numy],
    [.numY, .lit '/', .numM, .lit '/', .numD],
    [.numD, .lit '.', .numM, .lit '.', .numY],
    [.numY, .numM, .numD] ]

/-! ## Cell values and `normalize_date` -/

/-- Decimal string form of an integer (Python `str` on `int`). -/
def intStr (n : Int) : List Char :=
  if n < 0 then '-' :: Nat.toDigits 10 n.natAbs else Nat.toDigits 10 n.natAbs

/-- A Python cell value as the converter sees it: `None`, a `datetime`, a
numeric (`int`/`float`, kept abstractly as its integral part — only its
truthiness and type matter to the code under verification), or any other
value through its `str()` form. -/
inductive Value
  | vnone
  | vdate (d : Date)
  | vnum (n : Int)
  | vstr (s : List Char)
deriving DecidableEq

/-- Python truthiness of a cell value. -/
def truthy : Value → Bool
  | .vnone => false
  | .vdate _ => true
  | .vnum n => n != 0
  | .vstr s => s ≠ []

/-- Python `str()` of a cell value. -/
def strOf : Value → List Char
  | .vnone => "None".data
  | .vdate d => fmtDate d ++ " 00:00:00".data
  | .vnum n => intStr n
  | .vstr s => s

/-- The "no expiry" sentinel phrases of `normalize_date`. -/
def noExpirySentinels : List (List Char) :=
  ["n.v.t".data, "nvt".data, "onbeperkt".data, "unlimited".data]

/-- The format-trying loop of `normalize_date`: first successful
`strptime` wins and is reformatted; otherwise the string is returned. -/
def tryFormatsGo : List (List Tok) → List Char → List Char
  | [], s => s
  | f :: fs, s =>
    match parseWith f s with
    | some d => fmtDate d
    | none => tryFormatsGo fs s

/-- `normalize_date` of `xaurum_converter.py`. -/
def normalize_date : Value → List Char
  | .vnone => []
  | .vdate d => fmtDate d
  | .vnum _ => []
  | .vstr v =>
    let s := strip v
    if s = [] then s
    else if lower s ∈ noExpirySentinels then s
    else tryFormatsGo pyFormats s


/-! ## Association lists with Python `dict` semantics -/

/-- Python `dict` lookup (`d.get(k)`): keys are unique by construction, the
list keeps insertion order. -/
def dlookup {α β : Type} [DecidableEq α] : List (α × β) → α → Option β
  | [], _ => none
  | (k, v) :: rest, x => if x = k then some v else dlookup rest x

/-- Python `dict` assignment (`d[k] = v`): update in place if the key is
present, else append at the end (insertion order preserved). -/
def dset {α β : Type} [DecidableEq α] : List (α × β) → α → β → List (α × β)
  | [], k, v => [(k, v)]
  | (k', v') :: rest, k, v =>
    if k = k' then (k', v) :: rest else (k', v') :: dset rest k v

/-! ## Header resolution (`ws_headers_index` and `_idx`) -/

/-- Walk the header row's cells (1-based column counter), indexing the
lower-cased, trimmed, non-empty labels. -/
def headersGo : List (Option (List Char)) → Nat → List (List Char × Nat) →
    List (List Char × Nat)
  | [], _, mp => mp
  | cell :: rest, c, mp =>
    match cell with
    | none => headersGo rest (c + 1) mp
    | some v =>
      let k := lower (strip v)
      if k = [] then headersGo rest (c + 1) mp
      else headersGo rest (c + 1) (dset mp k c)

/-- `ws_headers_index`: the header row is given as the list of cell values of
columns `1 .. max_column` (`none` = empty cell). -/
def ws_headers_index (cells : List (Option (List Char))) : List (List Char × Nat) :=
  headersGo cells 1 []

/-- `_idx`: first synonym present in the header map wins. -/
def idxFirst (mp : List (List Char × Nat)) : List (List Char) → Option Nat
  | [] => none
  | n :: ns =>
    match dlookup mp n with
    | some c => some c
    | none => idxFirst mp ns

/-! ## Certificates deduplication (`convert_certificates`, step 2) -/

/-- One normalized Certificates record as assembled in `raw_rows`:
`sap`, `cert`, `iss`, `exp`, `link` are normalized strings, the other fields
raw cell values. -/
structure CertRow where
  emp : Value
  svc : Value
  gid : Value
  sap : List Char
  cert : List Char
  iss : List Char
  exp : List Char
  fut : Value
  link : List Char
deriving DecidableEq

/-- `person_key = gid or sap or emp` (first truthy wins). -/
def person_key (r : CertRow) : Value :=
  if truthy r.gid then r.gid
  else if r.sap ≠ [] then .vstr r.sap
  else r.emp

/-- The deduplication key `(person_key, cert)`. -/
def rowKey (r : CertRow) : Value × List Char := (person_key r, r.cert)

/-- `_parse_yyyy_mm_dd`: strict `strptime(s, "%Y-%m-%d")`, `None` on failure. -/
def parse_yyyy_mm_dd (s : List Char) : Option Date :=
  if s = [] then none else parseWith fmtYmd s

/-- The replacement test of the dedup loop: the new row wins iff the old has
no parseable expiry while the new does, or both parse and the new is
strictly later. -/
def betterRow (old new : CertRow) : Bool :=
  match parse_yyyy_mm_dd old.exp, parse_yyyy_mm_dd new.exp with
  | none, some _ => true
  | some o, some n => dateLt o n
  | _, _ => false

/-- One iteration of the dedup loop over `raw_rows`. -/
def dedupStep (acc : List ((Value × List Char) × CertRow)) (row : CertRow) :
    List ((Value × List Char) × CertRow) :=
  match dlookup acc (rowKey row) with
  | none => dset acc (rowKey row) row
  | some old => if betterRow old row then dset acc (rowKey row) row else acc

/-- `best_per_cert`: the dedup mapping after the whole pass. -/
def best_per_cert (rows : List CertRow) : List ((Value × List Char) × CertRow) :=
  rows.foldl dedupStep []

/-- Pairwise winner (`old` then `new`), as the loop resolves one duplicate. -/
def pickRow (a b : CertRow) : CertRow := if betterRow a b then b else a

/-! ## Cross-reference resolver (`convert_cert_results`) -/

/-- Python `str(v or "")`. -/
def orEmptyStr (v : Value) : List Char := if truthy v then strOf v else []

/-- One Staff row into the lookup table: skip when the stripped
group-identifier is empty or the raw identifier-number cell is falsy. -/
def staffStep (acc : List (List Char × List Char)) (row : Value × Value) :
    List (List Char × List Char) :=
  let gid := strip (orEmptyStr row.1)
  if gid ≠ [] && truthy row.2 then
    dset acc gid (normalize_sapnr (some (strOf row.2)))
  else acc

/-- The `gid_to_sap` LookupTable built from the Staff master rows
(`(gid cell, sap cell)` pairs). -/
def gid_to_sap (rows : List (Value × Value)) : List (List Char × List Char) :=
  rows.foldl staffStep []

/-- The mapping count the resolver reports after loading. -/
def staffMappingsReport (rows : List (Value × Value)) : Nat :=
  (gid_to_sap rows).length

/-- The join of one Certification-Results row against the table: returns the
identifier-number written to the output and the missing-lookup counter
increment. -/
def joinSap (tbl : List (List Char × List Char)) (gidCell : Value) :
    List Char × Nat :=
  let gid := if truthy gidCell then strip (strOf gidCell) else []
  if gid = [] then ([], 0)
  else
    let sap := (dlookup tbl gid).getD []
    (sap, if sap = [] then 1 else 0)

/-! ## Pipeline driver (`main`) -/

/-- Per-dataset outcome of one run. -/
inductive StepOutcome
  | success
  | failed (msg : List Char)
  | skippedMissing
deriving DecidableEq

/-- One dataset step at the driver boundary: a missing input file is
skipped, a conversion that raises is caught (`try`/`except`) and logged,
a normal return is a success.  `none` = no input file found; `Except.error`
= the conversion raised. -/
def runStep : Option (Except (List Char) Unit) → StepOutcome
  | none => .skippedMissing
  | some (Except.ok _) => .success
  | some (Except.error e) => .failed e

/-- The driver's dataset loop: every dataset is processed and reported,
each through its own `try`/`except`. -/
def mainRun (steps : List (Option (Except (List Char) Unit))) : List StepOutcome :=
  steps.map runStep

/-! ## Further definitions used by the statements -/

/-- Strict `YYYY-MM-DD` shape: ten characters, digits in the date positions,
dashes in positions 5 and 8. -/
def isYMD (s : List Char) : Bool :=
  match s with
  | [a, b, c, d, s1, e, f, s2, g, h] =>
    a.isDigit && b.isDigit && c.isDigit && d.isDigit && s1 == '-'
      && e.isDigit && f.isDigit && s2 == '-' && g.isDigit && h.isDigit
  | _ => false

/-- Example record: expiry `2024-01-01`. -/
def exR24 : CertRow :=
  { emp := .vstr "Jan Peeters".data, svc := .vnone, gid := .vstr "G001".data
    sap := "00123".data, cert := "BA5 Safety".data, iss := "2019-01-01".data
    exp := "2024-01-01".data, fut := .vnone, link := [] }

/-- Example record: expiry `2025-06-01`. -/
def exR25 : CertRow :=
  { exR24 with iss := "2020-06-01".data, exp := "2025-06-01".data }

/-- Example record: unparseable expiry. -/
def exRbad : CertRow :=
  { exR24 with iss := "2018-01-01".data, exp := "n.v.t".data }

/-- The shared IdentityKey of the three example records. -/
def exKey : Value × List Char := rowKey exR24

/-! ## Sanity checks of the embedding on concrete inputs -/

example : normalize_sapnr (some "SAP-00123".data) = "00123".data := by decide
example : normalize_sapnr (some "12".data) = "12".data := by decide
example : normalize_sapnr (some "".data) = [] := by decide
example : normalize_sapnr (some "  987654321 ".data) = "54321".data := by decide
example : normalize_date (.vstr "2024-01-01".data) = "2024-01-01".data := by decide
example : normalize_date (.vstr "01-02-2024".data) = "2024-02-01".data := by decide
example : normalize_date (.vstr "02/13/2024".data) = "2024-02-13".data := by decide
example : normalize_date (.vstr "13/02/24".data) = "2024-02-13".data := by decide
example : normalize_date (.vstr "20240101".data) = "2024-01-01".data := by decide
example : normalize_date (.vstr "5.6.99".data) = "5.6.99".data := by decide
example : normalize_date (.vstr "5.6.1999".data) = "1999-06-05".data := by decide
example : normalize_date (.vstr " NVT ".data) = "NVT".data := by decide
example : normalize_date (.vstr "Onbeperkt".data) = "Onbeperkt".data := by decide
example : normalize_date (.vstr "hello".data) = "hello".data := by decide
example : normalize_date (.vstr "2024-02-30".data) = "2024-02-30".data := by decide
example : normalize_date (.vnum 45000) = [] := by decide
example : normalize_date .vnone = [] := by decide

/-! ## Digit-character lemmas -/

theorem isDigit_dChar (n : Nat) : (dChar n).isDigit = true := by
  unfold dChar; split <;> decide

theorem not_ws_dChar (n : Nat) : (dChar n).isWhitespace = false := by
  unfold dChar; split <;> decide

theorem dv_dChar {n : Nat} (h : n < 10) : dv (dChar n) = n := by
  interval_cases n <;> decide

theorem isD19_dChar {n : Nat} (h1 : 1 ≤ n) (h2 : n < 10) : isD19 (dChar n) = true := by
  interval_cases n <;> decide

/-! ## `strip` and `fmtDate` lemmas -/

theorem strip_eq_rdropWhile (s : List Char) :
    strip s = List.rdropWhile Char.isWhitespace (List.dropWhile Char.isWhitespace s) := rfl

theorem strip_idem (s : List Char) : strip (strip s) = strip s := by
  rw [strip_eq_rdropWhile, strip_eq_rdropWhile]
  have hdw : List.dropWhile Char.isWhitespace
      (List.rdropWhile Char.isWhitespace (List.dropWhile Char.isWhitespace s))
      = List.rdropWhile Char.isWhitespace (List.dropWhile Char.isWhitespace s) := by
    cases hr : List.rdropWhile Char.isWhitespace (List.dropWhile Char.isWhitespace s) with
    | nil => simp
    | cons x r' =>
      obtain ⟨u, hu⟩ := List.rdropWhile_prefix Char.isWhitespace
        (List.dropWhile Char.isWhitespace s)
      rw [hr] at hu
      have h4 : (List.dropWhile Char.isWhitespace s).head? = some x := by
        rw [← hu]; rfl
      have h2 := List.head?_dropWhile_not Char.isWhitespace s
      rw [h4] at h2
      simp [List.dropWhile_cons, h2]
  rw [hdw, List.rdropWhile_idempotent]

theorem strip_eq_self_of_no_ws {s : List Char}
    (h : ∀ c ∈ s, Char.isWhitespace c = false) : strip s = s := by
  rw [strip_eq_rdropWhile]
  have h1 : List.dropWhile Char.isWhitespace s = s := by
    cases s with
    | nil => simp
    | cons x xs =>
      have := h x (by simp)
      simp [List.dropWhile_cons, this]
  rw [h1]
  rw [List.rdropWhile_eq_self_iff]
  intro hl
  have := h _ (List.getLast_mem hl)
  simp [this]

theorem fmtDate_no_ws (d : Date) : ∀ c ∈ fmtDate d, Char.isWhitespace c = false := by
  intro c hc
  simp only [fmtDate, pad4, pad2, List.mem_append, List.mem_cons,
    List.mem_singleton, List.not_mem_nil, or_false] at hc
  rcases hc with (h | h | h | h) | h | (h | h) | h | (h | h) <;>
    first
      | (subst h; exact not_ws_dChar _)
      | (subst h; decide)

theorem strip_fmtDate (d : Date) : strip (fmtDate d) = fmtDate d :=
  strip_eq_self_of_no_ws (fmtDate_no_ws d)

theorem fmtDate_as_list (d : Date) :
    fmtDate d = [dChar (d.year / 1000 % 10), dChar (d.year / 100 % 10),
      dChar (d.year / 10 % 10), dChar (d.year % 10), '-',
      dChar (d.month / 10 % 10), dChar (d.month % 10), '-',
      dChar (d.day / 10 % 10), dChar (d.day % 10)] := rfl

theorem isYMD_fmtDate (d : Date) : isYMD (fmtDate d) = true := by
  rw [fmtDate_as_list]
  simp [isYMD, isDigit_dChar]

theorem fmtDate_length (d : Date) : (fmtDate d).length = 10 := by
  rw [fmtDate_as_list]; rfl

theorem lower_fmtDate_not_sentinel (d : Date) :
    lower (fmtDate d) ∉ noExpirySentinels := by
  intro h
  have hlen : (lower (fmtDate d)).length = 10 := by
    simp [lower, fmtDate_length]
  simp only [noExpirySentinels, List.mem_cons, List.mem_singleton,
    List.not_mem_nil, or_false] at h
  rcases h with h | h | h | h <;> (rw [h] at hlen; simp at hlen)

/-! ## Evaluation lemmas for the `strptime` matcher -/

theorem matchToks_lit (c : Char) (ts : List Tok) (x : Char) (xs : List Char) (f : Fields) :
    matchToks (.lit c :: ts) (x :: xs) f = if x = c then matchToks ts xs f else none := rfl

theorem matchToks_numY (ts : List Tok) (xs : List Char) (f : Fields) :
    matchToks (.numY :: ts) xs f
      = tryCands (fun v rest => matchToks ts rest (setTok f .numY v)) (alts .numY xs) := rfl

theorem matchToks_numM (ts : List Tok) (xs : List Char) (f : Fields) :
    matchToks (.numM :: ts) xs f
      = tryCands (fun v rest => matchToks ts rest (setTok f .numM v)) (alts .numM xs) := rfl

theorem matchToks_numD (ts : List Tok) (xs : List Char) (f : Fields) :
    matchToks (.numD :: ts) xs f
      = tryCands (fun v rest => matchToks ts rest (setTok f .numD v)) (alts .numD xs) := rfl

theorem matchLit {c : Char} {ts : List Tok} {xs : List Char} {f : Fields} :
    matchToks (.lit c :: ts) (c :: xs) f = matchToks ts xs f := by
  rw [matchToks_lit]; simp

theorem tryCands_first {k : Nat → List Char → Option (Fields × List Char)}
    {v : Nat} {rest : List Char} {cs : List (Nat × List Char)} {r : Fields × List Char}
    (h : k v rest = some r) : tryCands k ((v, rest) :: cs) = some r := by
  simp [tryCands, h]

theorem matchYtail {f : Fields} {y : Nat} (hy : y ≤ 9999) {ts : List Tok}
    {rest : List Char} {r : Fields × List Char}
    (hk : matchToks ts rest (setTok f .numY y) = some r) :
    matchToks (.numY :: ts)
      (dChar (y / 1000 % 10) :: dChar (y / 100 % 10) :: dChar (y / 10 % 10)
        :: dChar (y % 10) :: rest) f = some r := by
  rw [matchToks_numY]
  have ha : alts .numY
      (dChar (y / 1000 % 10) :: dChar (y / 100 % 10) :: dChar (y / 10 % 10)
        :: dChar (y % 10) :: rest) = [(y, rest)] := by
    have h1 : y / 1000 % 10 < 10 := Nat.mod_lt _ (by norm_num)
    have h2 : y / 100 % 10 < 10 := Nat.mod_lt _ (by norm_num)
    have h3 : y / 10 % 10 < 10 := Nat.mod_lt _ (by norm_num)
    have h4 : y % 10 < 10 := Nat.mod_lt _ (by norm_num)
    simp only [alts, isDigit_dChar, Bool.and_self, if_pos,
      dv_dChar h1, dv_dChar h2, dv_dChar h3, dv_dChar h4]
    have : 1000 * (y / 1000 % 10) + 100 * (y / 100 % 10) + 10 * (y / 10 % 10) + y % 10 = y := by
      omega
    rw [this]
  rw [ha]
  exact tryCands_first hk

theorem matchMtail {f : Fields} {m : Nat} (h1 : 1 ≤ m) (h2 : m ≤ 12) {ts : List Tok}
    {rest : List Char} {r : Fields × List Char}
    (hk : matchToks ts rest (setTok f .numM m) = some r) :
    matchToks (.numM :: ts) (dChar (m / 10 % 10) :: dChar (m % 10) :: rest) f = some r := by
  rw [matchToks_numM]
  by_cases h10 : 10 ≤ m
  · interval_cases m
    · -- m = 10
      have ha : alts .numM (dChar (10 / 10 % 10) :: dChar (10 % 10) :: rest)
          = [(10, rest), (1, dChar (10 % 10) :: rest)] := by
        simp [alts, dChar, isD19, dv]
      rw [ha]; exact tryCands_first hk
    · -- m = 11
      have ha : alts .numM (dChar (11 / 10 % 10) :: dChar (11 % 10) :: rest)
          = [(11, rest), (1, dChar (11 % 10) :: rest)] := by
        simp [alts, dChar, isD19, dv]
      rw [ha]; exact tryCands_first hk
    · -- m = 12
      have ha : alts .numM (dChar (12 / 10 % 10) :: dChar (12 % 10) :: rest)
          = [(12, rest), (1, dChar (12 % 10) :: rest)] := by
        simp [alts, dChar, isD19, dv]
      rw [ha]; exact tryCands_first hk
  · -- 1 ≤ m ≤ 9
    have e1 : m / 10 % 10 = 0 := by omega
    have e2 : m % 10 = m := by omega
    rw [e1, e2]
    have ha : alts .numM (dChar 0 :: dChar m :: rest) = [(m, rest)] := by
      have hlt : m < 10 := by omega
      simp [alts, show dChar 0 = '0' from rfl, isD19_dChar h1 hlt, dv_dChar hlt,
        show isD19 '0' = false from by decide]
    rw [ha]; exact tryCands_first hk

theorem matchDtail {f : Fields} {dd : Nat} (h1 : 1 ≤ dd) (h2 : dd ≤ 31) {ts : List Tok}
    {rest : List Char} {r : Fields × List Char}
    (hk : matchToks ts rest (setTok f .numD dd) = some r) :
    matchToks (.numD :: ts) (dChar (dd / 10 % 10) :: dChar (dd % 10) :: rest) f = some r := by
  rw [matchToks_numD]
  by_cases h30 : 30 ≤ dd
  · interval_cases dd
    · -- dd = 30
      have ha : alts .numD (dChar (30 / 10 % 10) :: dChar (30 % 10) :: rest)
          = [(30, rest), (3, dChar (30 % 10) :: rest)] := by
        simp [alts, dChar, isD19, dv]
      rw [ha]; exact tryCands_first hk
    · -- dd = 31
      have ha : alts .numD (dChar (31 / 10 % 10) :: dChar (31 % 10) :: rest)
          = [(31, rest), (3, dChar (31 % 10) :: rest)] := by
        simp [alts, dChar, isD19, dv]
      rw [ha]; exact tryCands_first hk
  · by_cases h20 : 20 ≤ dd
    · -- 20 ≤ dd ≤ 29
      have e1 : dd / 10 % 10 = 2 := by omega
      rw [e1]
      have hlt : dd % 10 < 10 := by omega
      have ha : alts .numD (dChar 2 :: dChar (dd % 10) :: rest)
          = [(dd, rest), (2, dChar (dd % 10) :: rest)] := by
        simp [alts, show dChar 2 = '2' from rfl, isDigit_dChar, dv_dChar hlt,
          show dv '2' = 2 from rfl, show isD19 '2' = true from by decide]
        omega
      rw [ha]; exact tryCands_first hk
    · by_cases h10 : 10 ≤ dd
      · -- 10 ≤ dd ≤ 19
        have e1 : dd / 10 % 10 = 1 := by omega
        rw [e1]
        have hlt : dd % 10 < 10 := by omega
        have ha : alts .numD (dChar 1 :: dChar (dd % 10) :: rest)
            = [(dd, rest), (1, dChar (dd % 10) :: rest)] := by
          simp [alts, show dChar 1 = '1' from rfl, isDigit_dChar, dv_dChar hlt,
            show dv '1' = 1 from rfl, show isD19 '1' = true from by decide]
          omega
        rw [ha]; exact tryCands_first hk
      · -- 1 ≤ dd ≤ 9
        have e1 : dd / 10 % 10 = 0 := by omega
        have e2 : dd % 10 = dd := by omega
        rw [e1, e2]
        have ha : alts .numD (dChar 0 :: dChar dd :: rest) = [(dd, rest)] := by
          have hlt : dd < 10 := by omega
          simp [alts, show dChar 0 = '0' from rfl, isD19_dChar h1 hlt, dv_dChar hlt,
            show isD19 '0' = false from by decide]
        rw [ha]; exact tryCands_first hk

theorem daysInMonth_le (y m : Nat) : daysInMonth y m ≤ 31 := by
  unfold daysInMonth
  split
  · split <;> omega
  · split <;> omega

theorem dateOk_bounds {y m dd : Nat} (h : dateOk (y, m, dd) = true) :
    1 ≤ y ∧ y ≤ 9999 ∧ 1 ≤ m ∧ m ≤ 12 ∧ 1 ≤ dd ∧ dd ≤ 31 := by
  have hdm := daysInMonth_le y m
  simp only [dateOk, Bool.and_eq_true, decide_eq_true_eq] at h
  omega

/-- `strptime("%Y-%m-%d")` inverts `strftime("%Y-%m-%d")`. -/
theorem parse_fmtDate (d : Date) : parseWith fmtYmd (fmtDate d) = some d := by
  obtain ⟨⟨y, m, dd⟩, hok⟩ := d
  obtain ⟨hy1, hy2, hm1, hm2, hd1, hd2⟩ := dateOk_bounds hok
  have hyear : Date.year ⟨(y, m, dd), hok⟩ = y := rfl
  have hmonth : Date.month ⟨(y, m, dd), hok⟩ = m := rfl
  have hday : Date.day ⟨(y, m, dd), hok⟩ = dd := rfl
  have h0 : matchToks [] []
      (setTok (⟨some y, none, some m, none⟩ : Fields) .numD dd)
      = some (⟨some y, none, some m, some dd⟩, []) := rfl
  have h1 := matchDtail hd1 hd2 h0
  have h2 : matchToks [.lit '-', .numD]
      ('-' :: dChar (dd / 10 % 10) :: dChar (dd % 10) :: [])
      (⟨some y, none, some m, none⟩ : Fields)
      = some (⟨some y, none, some m, some dd⟩, []) := by
    rw [matchLit]; exact h1
  have h3 : matchToks [.numM, .lit '-', .numD]
      (dChar (m / 10 % 10) :: dChar (m % 10) :: '-' :: dChar (dd / 10 % 10)
        :: dChar (dd % 10) :: [])
      (setTok ({} : Fields) .numY y)
      = some (⟨some y, none, some m, some dd⟩, []) :=
    matchMtail hm1 hm2 h2
  have h4 : matchToks [.lit '-', .numM, .lit '-', .numD]
      ('-' :: dChar (m / 10 % 10) :: dChar (m % 10) :: '-' :: dChar (dd / 10 % 10)
        :: dChar (dd % 10) :: [])
      (setTok ({} : Fields) .numY y)
      = some (⟨some y, none, some m, some dd⟩, []) := by
    rw [matchLit]; exact h3
  have h5 := matchYtail hy2 (f := ({} : Fields)) h4
  have hmatch : matchToks fmtYmd (fmtDate ⟨(y, m, dd), hok⟩) ({} : Fields)
      = some (⟨some y, none, some m, some dd⟩, []) := by
    rw [fmtDate_as_list, hyear, hmonth, hday]
    exact h5
  unfold parseWith
  rw [hmatch]
  show dateFromFields ⟨some y, none, some m, some dd⟩ = some ⟨(y, m, dd), hok⟩
  unfold dateFromFields
  simp only [Option.getD_some]
  rw [dif_pos hok]

/-! ## `normalize_date` branch lemmas and idempotence -/

theorem tryFormatsGo_eq (fs : List (List Tok)) (s : List Char) :
    tryFormatsGo fs s =
      match fs.findSome? (fun f => parseWith f s) with
      | some d => fmtDate d
      | none => s := by
  induction fs with
  | nil => rfl
  | cons f fs ih =>
    cases h : parseWith f s with
    | some d => simp [tryFormatsGo, List.findSome?_cons, h]
    | none => simp [tryFormatsGo, List.findSome?_cons, h, ih]

theorem normalize_date_vstr (s : List Char) :
    normalize_date (.vstr s) =
      if strip s = [] then strip s
      else if lower (strip s) ∈ noExpirySentinels then strip s
      else tryFormatsGo pyFormats (strip s) := rfl

theorem fmtDate_ne_nil (d : Date) : fmtDate d ≠ [] := by
  rw [fmtDate_as_list]; simp

theorem norm_vstr_fmtDate (d : Date) :
    normalize_date (.vstr (fmtDate d)) = fmtDate d := by
  rw [normalize_date_vstr, strip_fmtDate, if_neg (fmtDate_ne_nil d),
    if_neg (lower_fmtDate_not_sentinel d)]
  simp [pyFormats, tryFormatsGo, parse_fmtDate]

/-- `normalize_date` is idempotent via re-wrapping its output as a string
value. -/
theorem norm_idem (v : Value) :
    normalize_date (.vstr (normalize_date v)) = normalize_date v := by
  cases v with
  | vnone => rfl
  | vnum n => rfl
  | vdate d => exact norm_vstr_fmtDate d
  | vstr s0 =>
    rw [normalize_date_vstr s0]
    by_cases h1 : strip s0 = []
    · rw [if_pos h1, h1]; rfl
    · rw [if_neg h1]
      by_cases h2 : lower (strip s0) ∈ noExpirySentinels
      · rw [if_pos h2, normalize_date_vstr, strip_idem, if_neg h1, if_pos h2]
      · rw [if_neg h2, tryFormatsGo_eq]
        cases hf : pyFormats.findSome? (fun f => parseWith f (strip s0)) with
        | some d => exact norm_vstr_fmtDate d
        | none =>
          rw [normalize_date_vstr, strip_idem, if_neg h1, if_neg h2, tryFormatsGo_eq, hf]

/-! ## `normalize_sapnr` characterization -/

theorem ws_not_digit (c : Char) (h : Char.isWhitespace c = true) :
    Char.isDigit c = false := by
  simp only [Char.isWhitespace, Bool.or_eq_true, decide_eq_true_eq] at h
  rcases h with ((h | h) | h) | h <;> (subst h; decide)

theorem filter_dropWhile_ws (l : List Char) :
    (l.dropWhile Char.isWhitespace).filter Char.isDigit = l.filter Char.isDigit := by
  induction l with
  | nil => rfl
  | cons x xs ih =>
    by_cases hx : Char.isWhitespace x = true
    · rw [List.dropWhile_cons_of_pos hx, ih, List.filter_cons_of_neg]
      simp [ws_not_digit x hx]
    · rw [List.dropWhile_cons_of_neg (by simp [hx])]

theorem filter_strip (s : List Char) :
    (strip s).filter Char.isDigit = s.filter Char.isDigit := by
  rw [strip_eq_rdropWhile, List.rdropWhile, List.filter_reverse,
    filter_dropWhile_ws, ← List.filter_reverse, List.reverse_reverse,
    filter_dropWhile_ws]

theorem normalize_sapnr_some (s : List Char) :
    normalize_sapnr (some s) =
      (if 5 ≤ (s.filter Char.isDigit).length then
        (s.filter Char.isDigit).drop ((s.filter Char.isDigit).length - 5)
      else s.filter Char.isDigit) := by
  show (if strip s = [] then []
    else if 5 ≤ ((strip s).filter Char.isDigit).length then
      ((strip s).filter Char.isDigit).drop (((strip s).filter Char.isDigit).length - 5)
    else (strip s).filter Char.isDigit) = _
  rw [filter_strip]
  by_cases h : strip s = []
  · have : s.filter Char.isDigit = [] := by
      rw [← filter_strip, h]; rfl
    rw [if_pos h, this]
    simp
  · rw [if_neg h]

/-! ## Dictionary lemmas -/

theorem dlookup_dset_self {α β : Type} [DecidableEq α] (l : List (α × β)) (k : α) (v : β) :
    dlookup (dset l k v) k = some v := by
  induction l with
  | nil => simp [dset, dlookup]
  | cons p rest ih =>
    obtain ⟨k', v'⟩ := p
    by_cases h : k = k'
    · simp [dset, h, dlookup]
    · simp [dset, h, dlookup, ih]

theorem dlookup_dset_ne {α β : Type} [DecidableEq α] (l : List (α × β)) (k k' : α) (v : β)
    (h : k' ≠ k) : dlookup (dset l k v) k' = dlookup l k' := by
  induction l with
  | nil => simp [dset, dlookup, h]
  | cons p rest ih =>
    obtain ⟨k2, v2⟩ := p
    by_cases h2 : k = k2
    · subst h2
      simp [dset, dlookup, h]
    · by_cases h3 : k' = k2
      · simp [dset, h2, dlookup, h3]
      · simp [dset, h2, dlookup, h3, ih]

theorem dlookup_eq_none_iff {α β : Type} [DecidableEq α] (l : List (α × β)) (k : α) :
    dlookup l k = none ↔ k ∉ l.map Prod.fst := by
  induction l with
  | nil => simp [dlookup]
  | cons p rest ih =>
    obtain ⟨k', v'⟩ := p
    by_cases h : k = k'
    · simp [dlookup, h]
    · simp [dlookup, h, ih]

theorem dset_keys_of_mem {α β : Type} [DecidableEq α] (l : List (α × β)) (k : α) (v : β)
    (h : k ∈ l.map Prod.fst) : (dset l k v).map Prod.fst = l.map Prod.fst := by
  induction l with
  | nil => simp at h
  | cons p rest ih =>
    obtain ⟨k', v'⟩ := p
    by_cases h2 : k = k'
    · simp [dset, h2]
    · simp only [List.map_cons, List.mem_cons] at h
      rcases h with h | h
    <;> first
        | exact absurd h h2
        | simp [dset, h2, ih h]

theorem dset_keys_of_not_mem {α β : Type} [DecidableEq α] (l : List (α × β)) (k : α) (v : β)
    (h : k ∉ l.map Prod.fst) : (dset l k v).map Prod.fst = l.map Prod.fst ++ [k] := by
  induction l with
  | nil => simp [dset]
  | cons p rest ih =>
    obtain ⟨k', v'⟩ := p
    simp only [List.map_cons, List.mem_cons] at h
    push_neg at h
    obtain ⟨h1, h2⟩ := h
    simp [dset, h1, ih h2]

theorem mem_dset {α β : Type} [DecidableEq α] (l : List (α × β)) (k k2 : α) (v v2 : β)
    (h : (k2, v2) ∈ dset l k v) : (k2, v2) ∈ l ∨ (k2 = k ∧ v2 = v) := by
  induction l with
  | nil =>
    simp [dset] at h
    right; exact h
  | cons p rest ih =>
    obtain ⟨k', v'⟩ := p
    by_cases h2 : k = k'
    · rw [dset, if_pos h2] at h
      rcases List.mem_cons.mp h with h3 | h3
      · rcases Prod.mk.injEq .. ▸ h3 with ⟨ha, hb⟩
        right; exact ⟨ha.symm ▸ h2.symm ▸ rfl, hb⟩
      · left; exact List.mem_cons_of_mem _ h3
    · rw [dset, if_neg h2] at h
      rcases List.mem_cons.mp h with h3 | h3
      · left; exact List.mem_cons.mpr (Or.inl h3)
      · rcases ih h3 with h4 | h4
        · left; exact List.mem_cons_of_mem _ h4
        · right; exact h4

/-! ## Deduplication: the fold computes a per-key partition fold -/

theorem dlookup_some_mem_keys {α β : Type} [DecidableEq α] {l : List (α × β)} {k : α} {v : β}
    (h : dlookup l k = some v) : k ∈ l.map Prod.fst := by
  by_contra hc
  rw [← dlookup_eq_none_iff l k] at hc
  rw [h] at hc
  exact Option.noConfusion hc

theorem dedupStep_lookup_ne (acc : List ((Value × List Char) × CertRow)) (r : CertRow)
    (k : Value × List Char) (hk : rowKey r ≠ k) :
    dlookup (dedupStep acc r) k = dlookup acc k := by
  unfold dedupStep
  have hne : k ≠ rowKey r := fun h => hk h.symm
  cases h : dlookup acc (rowKey r) with
  | none => simp [dlookup_dset_ne _ _ _ _ hne]
  | some a =>
    by_cases hb : betterRow a r = true
    · simp [hb, dlookup_dset_ne _ _ _ _ hne]
    · simp [hb]

theorem foldl_dedup (rows : List CertRow) (acc : List ((Value × List Char) × CertRow))
    (k : Value × List Char) :
    dlookup (rows.foldl dedupStep acc) k =
      match dlookup acc k with
      | some a => some ((rows.filter (fun r => rowKey r = k)).foldl pickRow a)
      | none =>
        match rows.filter (fun r => rowKey r = k) with
        | [] => none
        | x :: xs => some (xs.foldl pickRow x) := by
  induction rows generalizing acc with
  | nil => cases h : dlookup acc k <;> simp [h]
  | cons r rs ih =>
    rw [List.foldl_cons, ih (dedupStep acc r)]
    by_cases hk : rowKey r = k
    · subst hk
      have hf : (r :: rs).filter (fun x => rowKey x = rowKey r)
          = r :: rs.filter (fun x => rowKey x = rowKey r) := by
        simp [List.filter_cons]
      rw [hf]
      cases h : dlookup acc (rowKey r) with
      | none =>
        have hstep : dedupStep acc r = dset acc (rowKey r) r := by
          unfold dedupStep; rw [h]
        rw [hstep, dlookup_dset_self]
      | some a =>
        have hstep : dedupStep acc r
            = if betterRow a r then dset acc (rowKey r) r else acc := by
          unfold dedupStep; rw [h]
        by_cases hb : betterRow a r = true
        · rw [hstep, if_pos hb, dlookup_dset_self]
          have hp : pickRow a r = r := by simp [pickRow, hb]
          simp only [List.foldl_cons, hp]
        · rw [hstep, if_neg hb, h]
          have hp : pickRow a r = a := by simp [pickRow, hb]
          simp only [List.foldl_cons, hp]
    · rw [dedupStep_lookup_ne acc r k hk]
      have hf : (r :: rs).filter (fun x => rowKey x = k)
          = rs.filter (fun x => rowKey x = k) := by
        simp [List.filter_cons, hk]
      rw [hf]

theorem best_per_cert_lookup (rows : List CertRow) (k : Value × List Char) :
    dlookup (best_per_cert rows) k =
      match rows.filter (fun r => rowKey r = k) with
      | [] => none
      | x :: xs => some (xs.foldl pickRow x) := by
  have h := foldl_dedup rows [] k
  simpa [best_per_cert, dlookup] using h

theorem dedupStep_keys (acc : List ((Value × List Char) × CertRow)) (r : CertRow) :
    (dedupStep acc r).map Prod.fst = acc.map Prod.fst
    ∨ (dedupStep acc r).map Prod.fst = acc.map Prod.fst ++ [rowKey r] := by
  unfold dedupStep
  cases h : dlookup acc (rowKey r) with
  | none =>
    right
    exact dset_keys_of_not_mem _ _ _ ((dlookup_eq_none_iff _ _).mp h)
  | some a =>
    by_cases hb : betterRow a r = true
    · left
      simp only [hb, if_true]
      exact dset_keys_of_mem _ _ _ (dlookup_some_mem_keys h)
    · left
      simp [hb]

theorem foldl_dedup_keys_nodup (rows : List CertRow)
    (acc : List ((Value × List Char) × CertRow)) (hacc : (acc.map Prod.fst).Nodup) :
    ((rows.foldl dedupStep acc).map Prod.fst).Nodup := by
  induction rows generalizing acc with
  | nil => exact hacc
  | cons r rs ih =>
    rw [List.foldl_cons]
    apply ih
    unfold dedupStep
    cases h : dlookup acc (rowKey r) with
    | none =>
      rw [dset_keys_of_not_mem _ _ _ ((dlookup_eq_none_iff _ _).mp h)]
      rw [List.nodup_append]
      exact ⟨hacc, List.nodup_singleton _,
        by simp [List.disjoint_singleton, (dlookup_eq_none_iff _ _).mp h]⟩
    | some a =>
      by_cases hb : betterRow a r = true
      · simp only [hb, if_true]
        rw [dset_keys_of_mem _ _ _ (dlookup_some_mem_keys h)]
        exact hacc
      · simp only [hb]
        simpa using hacc

theorem best_per_cert_keys_nodup (rows : List CertRow) :
    ((best_per_cert rows).map Prod.fst).Nodup :=
  foldl_dedup_keys_nodup rows [] (by simp)

/-! ## Header resolution lemmas -/

theorem headersGo_mem (cells : List (Option (List Char))) (c0 : Nat)
    (acc : List (List Char × Nat)) (k : List Char) (c : Nat)
    (h : (k, c) ∈ headersGo cells c0 acc) :
    (k, c) ∈ acc ∨ ∃ i s, cells[i]? = some (some s) ∧ c = c0 + i
      ∧ k = lower (strip s) ∧ k ≠ [] := by
  induction cells generalizing c0 acc with
  | nil => left; exact h
  | cons cell rest ih =>
    cases cell with
    | none =>
      rcases ih (c0 + 1) acc h with h1 | ⟨i, s, h2, h3, h4, h5⟩
      · left; exact h1
      · right
        exact ⟨i + 1, s, by simpa using h2, by omega, h4, h5⟩
    | some v =>
      by_cases hk : lower (strip v) = []
      · rw [show headersGo (some v :: rest) c0 acc = headersGo rest (c0 + 1) acc by
          simp [headersGo, hk]] at h
        rcases ih (c0 + 1) acc h with h1 | ⟨i, s, h2, h3, h4, h5⟩
        · left; exact h1
        · right
          exact ⟨i + 1, s, by simpa using h2, by omega, h4, h5⟩
      · rw [show headersGo (some v :: rest) c0 acc
            = headersGo rest (c0 + 1) (dset acc (lower (strip v)) c0) by
          simp [headersGo, hk]] at h
        rcases ih (c0 + 1) _ h with h1 | ⟨i, s, h2, h3, h4, h5⟩
        · rcases mem_dset _ _ _ _ _ h1 with h2 | ⟨h2, h3⟩
          · left; exact h2
          · right
            exact ⟨0, v, by simp, by omega, h2, h2 ▸ hk⟩
        · right
          exact ⟨i + 1, s, by simpa using h2, by omega, h4, h5⟩

theorem ws_headers_index_mem (cells : List (Option (List Char))) (k : List Char) (c : Nat)
    (h : (k, c) ∈ ws_headers_index cells) :
    ∃ i s, cells[i]? = some (some s) ∧ c = 1 + i ∧ k = lower (strip s) ∧ k ≠ [] := by
  rcases headersGo_mem cells 1 [] k c h with h1 | h1
  · simp at h1
  · exact h1

theorem idxFirst_eq (mp : List (List Char × Nat)) (names : List (List Char)) :
    idxFirst mp names
      = (names.find? (fun n => (dlookup mp n).isSome)).bind (dlookup mp) := by
  induction names with
  | nil => rfl
  | cons n ns ih =>
    cases h : dlookup mp n with
    | some c => simp [idxFirst, h, List.find?_cons]
    | none => simp [idxFirst, h, List.find?_cons, ih]

/-! ## Cross-reference lookup lemmas -/

theorem staffStep_skip (acc : List (List Char × List Char)) (row : Value × Value)
    (h : strip (orEmptyStr row.1) = [] ∨ truthy row.2 = false) :
    staffStep acc row = acc := by
  unfold staffStep
  rcases h with h | h <;> simp [h]

theorem gid_to_sap_skip (pre post : List (Value × Value)) (row : Value × Value)
    (h : strip (orEmptyStr row.1) = [] ∨ truthy row.2 = false) :
    gid_to_sap (pre ++ row :: post) = gid_to_sap (pre ++ post) := by
  unfold gid_to_sap
  rw [List.foldl_append, List.foldl_append, List.foldl_cons, staffStep_skip _ row h]

theorem gid_to_sap_aux (rows : List (Value × Value)) (acc : List (List Char × List Char))
    (g : List Char) (s : List Char)
    (h : dlookup (rows.foldl staffStep acc) g = some s) :
    dlookup acc g = some s ∨ (g ≠ [] ∧ ∃ row ∈ rows, truthy row.2 = true
      ∧ strip (orEmptyStr row.1) = g ∧ s = normalize_sapnr (some (strOf row.2))) := by
  induction rows generalizing acc with
  | nil => left; exact h
  | cons row rest ih =>
    rw [List.foldl_cons] at h
    rcases ih _ h with h1 | ⟨hg, row', hmem, ht, hgid, hs⟩
    · by_cases hc : (strip (orEmptyStr row.1) ≠ [] && truthy row.2) = true
      · have hstep : staffStep acc row
            = dset acc (strip (orEmptyStr row.1)) (normalize_sapnr (some (strOf row.2))) := by
          unfold staffStep
          rw [if_pos hc]
        rw [hstep] at h1
        by_cases hgg : g = strip (orEmptyStr row.1)
        · subst hgg
          rw [dlookup_dset_self] at h1
          have hcc := hc
          simp only [Bool.and_eq_true, ne_eq, decide_eq_true_eq] at hcc
          right
          refine ⟨hcc.1, row, List.mem_cons_self _ _, hcc.2, rfl, ?_⟩
          exact (Option.some.injEq .. ▸ h1).symm
        · rw [dlookup_dset_ne _ _ _ _ hgg] at h1
          left; exact h1
      · have hstep : staffStep acc row = acc := by
          unfold staffStep
          rw [if_neg hc]
        rw [hstep] at h1
        left; exact h1
    · right
      exact ⟨hg, row', List.mem_cons_of_mem _ hmem, ht, hgid, hs⟩

theorem gid_to_sap_lookup_mem (rows : List (Value × Value)) (g s : List Char)
    (h : dlookup (gid_to_sap rows) g = some s) :
    g ≠ [] ∧ ∃ row ∈ rows, truthy row.2 = true
      ∧ strip (orEmptyStr row.1) = g ∧ s = normalize_sapnr (some (strOf row.2)) := by
  rcases gid_to_sap_aux rows [] g s h with h1 | h1
  · simp [dlookup] at h1
  · exact h1

/-! ## Claim theorems -/

/-- C2 (counterexample): the claim "output is either empty or exactly 5
digits" fails: `normalize_sapnr("12") = "12"`, which is neither empty nor of
length 5. -/
theorem C2_counterexample :
    ¬ (normalize_sapnr (some "12".data) = []
       ∨ (normalize_sapnr (some "12".data)).length = 5) := by decide

/-- C2 (amended): for every input value, the output of `normalize_sapnr` is
either empty or a string of at most 5 digits (exactly 5 whenever the input
contains at least 5 digits, as C3 states). -/
theorem C2_identifier_normalizer_amended :
    ∀ v : Option (List Char), normalize_sapnr v = []
      ∨ ((normalize_sapnr v).length ≤ 5
          ∧ (normalize_sapnr v).all Char.isDigit = true) := by
  intro v
  cases v with
  | none => left; rfl
  | some s =>
    rw [normalize_sapnr_some]
    by_cases h : 5 ≤ (s.filter Char.isDigit).length
    · rw [if_pos h]
      right
      constructor
      · rw [List.length_drop]; omega
      · rw [List.all_eq_true]
        intro c hc
        exact (List.mem_filter.mp (List.mem_of_mem_drop hc)).2
    · rw [if_neg h]
      right
      constructor
      · omega
      · rw [List.all_eq_true]
        intro c hc
        exact (List.mem_filter.mp hc).2

/-- C3: the identifier normalizer keeps exactly the digits of the raw value;
with at least five digits it returns the last five, otherwise whatever digits
remain; and the three documented examples hold. -/
theorem C3_identifier_normalizer :
    (∀ s : List Char, normalize_sapnr (some s) =
      (if 5 ≤ (s.filter Char.isDigit).length then
        (s.filter Char.isDigit).drop ((s.filter Char.isDigit).length - 5)
      else s.filter Char.isDigit))
    ∧ normalize_sapnr (some "SAP-00123".data) = "00123".data
    ∧ normalize_sapnr (some "12".data) = "12".data
    ∧ normalize_sapnr (some "".data) = "".data :=
  ⟨normalize_sapnr_some, by decide, by decide, by decide⟩

/-- C4: branch behaviour of the date normalizer: calendar dates are formatted
`YYYY-MM-DD`; recognized sentinel phrases (case-insensitive) are returned as
trimmed; numeric values give empty; any other string is tried against the
fixed ordered format list, the first successful parse is reformatted, and the
trimmed original is returned when none match. -/
theorem C4_date_normalizer :
    (normalize_date .vnone = [])
    ∧ (∀ d : Date, normalize_date (.vdate d) = fmtDate d
        ∧ isYMD (normalize_date (.vdate d)) = true)
    ∧ (∀ n : Int, normalize_date (.vnum n) = [])
    ∧ (∀ s : List Char, strip s ≠ [] → lower (strip s) ∈ noExpirySentinels →
        normalize_date (.vstr s) = strip s)
    ∧ (∀ s : List Char, strip s ≠ [] → lower (strip s) ∉ noExpirySentinels →
        normalize_date (.vstr s) =
          (match pyFormats.findSome? (fun f => parseWith f (strip s)) with
           | some d => fmtDate d
           | none => strip s)) := by
  refine ⟨rfl, fun d => ⟨rfl, isYMD_fmtDate d⟩, fun n => rfl, fun s h1 h2 => ?_, fun s h1 h2 => ?_⟩
  · rw [normalize_date_vstr, if_neg h1, if_pos h2]
  · rw [normalize_date_vstr, if_neg h1, if_neg h2, tryFormatsGo_eq]

/-- C4 (witness): the sentinel branch on `" NVT "` and the fallback branch on
`"hello"`, instantiated concretely. -/
theorem C4_witness :
    normalize_date (.vstr " NVT ".data) = strip " NVT ".data
    ∧ normalize_date (.vstr "hello".data) =
        (match pyFormats.findSome? (fun f => parseWith f (strip "hello".data)) with
         | some d => fmtDate d
         | none => strip "hello".data) :=
  ⟨C4_date_normalizer.2.2.2.1 " NVT ".data (by decide) (by decide),
   C4_date_normalizer.2.2.2.2 "hello".data (by decide) (by decide)⟩

/-- C5 (counterexample): the claim "every output is empty, a sentinel, or
strict `YYYY-MM-DD`" fails: an unparseable non-sentinel string such as
`"hello"` is passed through verbatim. -/
theorem C5_counterexample :
    ¬ (normalize_date (.vstr "hello".data) = []
       ∨ normalize_date (.vstr "hello".data) ∈ noExpirySentinels
       ∨ isYMD (normalize_date (.vstr "hello".data)) = true) := by decide

/-- C5 (amended): every output of the date normalizer is empty, equal
case-insensitively to a passthrough sentinel, strictly `YYYY-MM-DD`, or —
when no date pattern matches a string input — the trimmed original string. -/
theorem C5_date_normalizer_range_amended :
    ∀ v : Value, normalize_date v = []
      ∨ lower (normalize_date v) ∈ noExpirySentinels
      ∨ isYMD (normalize_date v) = true
      ∨ ∃ s, v = .vstr s ∧ normalize_date v = strip s := by
  intro v
  cases v with
  | vnone => left; rfl
  | vnum n => left; rfl
  | vdate d => right; right; left; exact isYMD_fmtDate d
  | vstr s =>
    rw [normalize_date_vstr]
    by_cases h1 : strip s = []
    · rw [if_pos h1, h1]; left; rfl
    · rw [if_neg h1]
      by_cases h2 : lower (strip s) ∈ noExpirySentinels
      · rw [if_pos h2]
        right; left; exact h2
      · rw [if_neg h2, tryFormatsGo_eq]
        cases hf : pyFormats.findSome? (fun f => parseWith f (strip s)) with
        | some d =>
          right; right; left; exact isYMD_fmtDate d
        | none =>
          right; right; right; exact ⟨s, rfl, rfl⟩

/-- C6: the date normalizer is idempotent on its own `YYYY-MM-DD` outputs:
re-normalizing such an output returns it unchanged. -/
theorem C6_date_normalizer_idempotent :
    ∀ v : Value, isYMD (normalize_date v) = true →
      normalize_date (.vstr (normalize_date v)) = normalize_date v :=
  fun v _ => norm_idem v

/-- C6 (witness): the output of normalizing `"01-02-2024"` is in `YYYY-MM-DD`
form and re-normalizes to itself. -/
theorem C6_witness :
    normalize_date (.vstr (normalize_date (.vstr "01-02-2024".data)))
      = normalize_date (.vstr "01-02-2024".data) :=
  C6_date_normalizer_idempotent (.vstr "01-02-2024".data) (by decide)

/-- C9: the driver gives every dataset step its own outcome: the outcome list
has one entry per step, each entry depends only on that step's own result,
and a conversion failure contributes a `failed` outcome without affecting the
steps after it. -/
theorem C9_driver_isolates_failures :
    (∀ steps : List (Option (Except (List Char) Unit)),
      (mainRun steps).length = steps.length)
    ∧ (∀ (steps : List (Option (Except (List Char) Unit))) (i : Nat),
      (mainRun steps)[i]? = (steps[i]?).map runStep)
    ∧ (∀ (pre post : List (Option (Except (List Char) Unit))) (e : List Char),
        mainRun (pre ++ some (Except.error e) :: post)
          = mainRun pre ++ StepOutcome.failed e :: mainRun post) := by
  refine ⟨fun steps => List.length_map .., fun steps i => ?_, fun pre post e => ?_⟩
  · simp [mainRun]
  · simp [mainRun, runStep]

/-- C7: the header map indexes exactly the lower-cased, trimmed, non-empty
cell labels at their 1-based columns; synonym lookup returns the first
synonym present in the map; and `" CertName "` and `"certname"` produce the
same header map. -/
theorem C7_header_resolution :
    (∀ (cells : List (Option (List Char))) (k : List Char) (c : Nat),
      (k, c) ∈ ws_headers_index cells →
      ∃ i s, cells[i]? = some (some s) ∧ c = 1 + i ∧ k = lower (strip s) ∧ k ≠ [])
    ∧ (∀ (mp : List (List Char × Nat)) (names : List (List Char)),
      idxFirst mp names
        = (names.find? (fun n => (dlookup mp n).isSome)).bind (dlookup mp))
    ∧ ws_headers_index [some " CertName ".data]
        = ws_headers_index [some "certname".data] :=
  ⟨ws_headers_index_mem, idxFirst_eq, by decide⟩

/-- C7 (witness): the entry of the header map for the cell `" CertName "`,
instantiated concretely. -/
theorem C7_witness :
    ∃ i s, ([some " CertName ".data] : List (Option (List Char)))[i]? = some (some s)
      ∧ 1 = 1 + i ∧ "certname".data = lower (strip s) ∧ "certname".data ≠ [] :=
  C7_header_resolution.1 [some " CertName ".data] "certname".data 1 (by decide)

/-- C8: the Staff lookup table skips rows whose stripped group-identifier is
empty or whose raw identifier-number cell is falsy; every mapping in it comes
from such a surviving row, keyed by group-identifier with a normalized
identifier-number value; the reported count is the table size; and a joined
record whose group-identifier is absent from the table gets an empty
identifier-number and increments the missing-lookup counter, without error. -/
theorem C8_cross_reference :
    (∀ (pre post : List (Value × Value)) (row : Value × Value),
      strip (orEmptyStr row.1) = [] ∨ truthy row.2 = false →
      gid_to_sap (pre ++ row :: post) = gid_to_sap (pre ++ post))
    ∧ (∀ (rows : List (Value × Value)) (g s : List Char),
        dlookup (gid_to_sap rows) g = some s →
        g ≠ [] ∧ ∃ row ∈ rows, truthy row.2 = true ∧ strip (orEmptyStr row.1) = g
          ∧ s = normalize_sapnr (some (strOf row.2)))
    ∧ (∀ rows : List (Value × Value),
        staffMappingsReport rows = (gid_to_sap rows).length)
    ∧ (∀ (tbl : List (List Char × List Char)) (cell : Value),
        truthy cell = true → strip (strOf cell) ≠ [] →
        dlookup tbl (strip (strOf cell)) = none →
        joinSap tbl cell = ([], 1)) := by
  refine ⟨gid_to_sap_skip, gid_to_sap_lookup_mem, fun rows => rfl,
    fun tbl cell h1 h2 h3 => ?_⟩
  unfold joinSap
  rw [h1]
  simp only [if_true]
  rw [if_neg h2, h3]
  simp

/-- C8 (witness): joining a record with group-identifier `"G9"` against the
empty table yields an empty identifier-number and one counted miss. -/
theorem C8_witness : joinSap [] (.vstr "G9".data) = ([], 1) :=
  C8_cross_reference.2.2.2 [] (.vstr "G9".data) (by decide) (by decide) rfl

/-- C1: the dedup pass partitions by IdentityKey — a key appears in the
result iff some input row carries it, with no duplicate keys — and within a
partition retains exactly the fold of the pairwise tie-break over that
partition in input order; the person identifier is group-identifier, else
identifier-number, else employee name; the tie-break prefers a parseable
strict `YYYY-MM-DD` expiry over an unparseable one, the strictly later of two
parseable dates, and the first-seen row otherwise; and in the concrete
three-record scenario (`2024-01-01`, `2025-06-01`, one unparseable) the
`2025-06-01` record survives in every insertion order. -/
theorem C1_certificates_dedup :
    (∀ (rows : List CertRow) (k : Value × List Char),
      (dlookup (best_per_cert rows) k).isSome = true ↔ ∃ r ∈ rows, rowKey r = k)
    ∧ (∀ rows : List CertRow, ((best_per_cert rows).map Prod.fst).Nodup)
    ∧ (∀ (rows : List CertRow) (k : Value × List Char) (x : CertRow) (xs : List CertRow),
      rows.filter (fun r => rowKey r = k) = x :: xs →
      dlookup (best_per_cert rows) k = some (xs.foldl pickRow x))
    ∧ (∀ r : CertRow, truthy r.gid = true → rowKey r = (r.gid, r.cert))
    ∧ (∀ r : CertRow, truthy r.gid = false → r.sap ≠ [] →
        rowKey r = (.vstr r.sap, r.cert))
    ∧ (∀ r : CertRow, truthy r.gid = false → r.sap = [] → rowKey r = (r.emp, r.cert))
    ∧ (∀ a b : CertRow, parse_yyyy_mm_dd a.exp = none →
        (parse_yyyy_mm_dd b.exp).isSome = true → pickRow a b = b)
    ∧ (∀ (a b : CertRow) (da : Date), parse_yyyy_mm_dd a.exp = some da →
        parse_yyyy_mm_dd b.exp = none → pickRow a b = a)
    ∧ (∀ (a b : CertRow) (da db : Date), parse_yyyy_mm_dd a.exp = some da →
        parse_yyyy_mm_dd b.exp = some db →
        pickRow a b = if dateLt da db then b else a)
    ∧ (∀ a b : CertRow, parse_yyyy_mm_dd a.exp = none →
        parse_yyyy_mm_dd b.exp = none → pickRow a b = a)
    ∧ (dlookup (best_per_cert [exR24, exR25, exRbad]) exKey = some exR25
       ∧ dlookup (best_per_cert [exR24, exRbad, exR25]) exKey = some exR25
       ∧ dlookup (best_per_cert [exR25, exR24, exRbad]) exKey = some exR25
       ∧ dlookup (best_per_cert [exR25, exRbad, exR24]) exKey = some exR25
       ∧ dlookup (best_per_cert [exRbad, exR24, exR25]) exKey = some exR25
       ∧ dlookup (best_per_cert [exRbad, exR25, exR24]) exKey = some exR25) := by
  refine ⟨fun rows k => ?_, best_per_cert_keys_nodup,
    fun rows k x xs hf => ?_, fun r h => ?_, fun r h1 h2 => ?_, fun r h1 h2 => ?_,
    fun a b h1 h2 => ?_, fun a b da h1 h2 => ?_, fun a b da db h1 h2 => ?_,
    fun a b h1 h2 => ?_,
    by decide, by decide, by decide, by decide, by decide, by decide⟩
  · rw [best_per_cert_lookup]
    cases hf : rows.filter (fun r => rowKey r = k) with
    | nil =>
      simp only [Option.isSome_none, Bool.false_eq_true, false_iff]
      rintro ⟨r, hr, hk⟩
      have hmem : r ∈ rows.filter (fun r => rowKey r = k) :=
        List.mem_filter.mpr ⟨hr, by simp [hk]⟩
      rw [hf] at hmem
      simp at hmem
    | cons x xs =>
      simp only [Option.isSome_some, true_iff]
      have hx : x ∈ rows.filter (fun r => rowKey r = k) := by
        rw [hf]; exact List.mem_cons_self _ _
      have hx2 := List.mem_filter.mp hx
      exact ⟨x, hx2.1, by simpa using hx2.2⟩
  · rw [best_per_cert_lookup, hf]
  · simp [rowKey, person_key, h]
  · simp [rowKey, person_key, h1, h2]
  · simp [rowKey, person_key, h1, h2]
  · obtain ⟨d, hd⟩ := Option.isSome_iff_exists.mp h2
    simp [pickRow, betterRow, h1, hd]
  · simp [pickRow, betterRow, h1, h2]
  · simp only [pickRow, betterRow, h1, h2]
  · simp [pickRow, betterRow, h1, h2]

/-- C1 (witness): the partition-fold characterization instantiated on the
three-record example. -/
theorem C1_witness :
    dlookup (best_per_cert [exR24, exR25, exRbad]) exKey
      = some ([exR25, exRbad].foldl pickRow exR24) :=
  C1_certificates_dedup.2.2.1 [exR24, exR25, exRbad] exKey exR24 [exR25, exRbad]
    (by decide)

/-- C10: with two parseable and equal expiry dates the comparison is a strict
greater-than, so the incumbent row is kept: among equal-latest duplicates the
first-seen record survives. -/
theorem C10_dedup_equal_dates_first_seen :
    (∀ (a b : CertRow) (d1 d2 : Date), parse_yyyy_mm_dd a.exp = some d1 →
      parse_yyyy_mm_dd b.exp = some d2 → d1 = d2 →
      betterRow a b = false ∧ pickRow a b = a)
    ∧ (∀ (r1 r2 : CertRow) (d : Date), rowKey r2 = rowKey r1 →
      parse_yyyy_mm_dd r1.exp = some d → parse_yyyy_mm_dd r2.exp = some d →
      dlookup (best_per_cert [r1, r2]) (rowKey r1) = some r1) := by
  have hlt : ∀ d : Date, dateLt d d = false := by
    intro d; simp [dateLt]
  have hbet : ∀ (a b : CertRow) (d1 d2 : Date), parse_yyyy_mm_dd a.exp = some d1 →
      parse_yyyy_mm_dd b.exp = some d2 → d1 = d2 → betterRow a b = false := by
    intro a b d1 d2 h1 h2 he
    subst he
    simp [betterRow, h1, h2, hlt]
  refine ⟨fun a b d1 d2 h1 h2 he => ⟨hbet a b d1 d2 h1 h2 he, ?_⟩,
    fun r1 r2 d hk h1 h2 => ?_⟩
  · simp [pickRow, hbet a b d1 d2 h1 h2 he]
  · rw [best_per_cert_lookup]
    have hf : ([r1, r2]).filter (fun r => rowKey r = rowKey r1) = [r1, r2] := by
      simp [List.filter_cons, hk]
    rw [hf]
    simp only [List.foldl_cons, List.foldl_nil]
    rw [show pickRow r1 r2 = r1 from by simp [pickRow, hbet r1 r2 d d h1 h2 rfl]]

/-- C10 (witness): two records with the same key and the same parseable
expiry date; the first-seen one is retained. -/
theorem C10_witness :
    dlookup (best_per_cert [exR24, { exR24 with link := "x".data }]) (rowKey exR24)
      = some exR24 :=
  C10_dedup_equal_dates_first_seen.2 exR24 { exR24 with link := "x".data }
    ⟨(2024, 1, 1), by decide⟩ rfl (by decide) (by decide)
